import Mathlib

/-!
Verification development for the e-commerce SQL chatbot (`chatbot.py`).

Strings are modelled as `List Char`.  Python's `str.strip` is modelled on the
ASCII whitespace characters, `str.splitlines` on the newline separator, and
`"\n".join` as interleaving newlines.  The SQLite engine, the generative-model
client, and the pandas rendering calls are external collaborators; they are
modelled by explicit parameters (`EngineReply`-valued functions, `Except`-valued
generators) and by faithful renderings (`to_string`, `to_dict_records`) of the
calls the source makes on a result `DataFrame`.
-/

/-- A SQLite runtime value as stored in a fetched row: NULL, INTEGER, REAL
(modelled as a rational), TEXT, or BLOB. -/
inductive Value
  | null
  | int (i : Int)
  | real (q : Rat)
  | text (s : List Char)
  | blob (b : List Nat)
deriving DecidableEq

/-- Python `str(v)` of a cell value, as used by `astype(str)` and by the
pandas text rendering (model). -/
def valStr : Value → List Char
  | Value.null => "None".toList
  | Value.int i => (toString i).toList
  | Value.real q => (toString q).toList
  | Value.text s => s
  | Value.blob _ => "bytes".toList

/-- The materialized result of `cursor.fetchall()` plus the column names taken
from `cursor.description`: the `pd.DataFrame(rows, columns=columns)` of
`execute_sql`. -/
structure ResultSet where
  columns : List (List Char)
  rows : List (List Value)
deriving DecidableEq

/-- Is the value numeric (INTEGER or REAL)? -/
def isNumVal : Value → Bool
  | Value.int _ => true
  | Value.real _ => true
  | _ => false

/-- Is the value NULL? -/
def isNullVal : Value → Bool
  | Value.null => true
  | _ => false

/-- `pd.api.types.is_numeric_dtype` on a column materialized from fetched rows:
pandas infers a numeric dtype exactly when at least one entry is numeric and
every entry is numeric or NULL (NULLs become NaN); an all-NULL, empty, or
text-containing column gets dtype `object`. -/
def numericDtype (vs : List Value) : Bool :=
  vs.any isNumVal && vs.all (fun v => isNumVal v || isNullVal v)

/-- Column `i` of the data frame (`df[name]` / `df.iloc[:, i]`), one value per
row in row order. -/
def colVals (rs : ResultSet) (i : Nat) : List Value :=
  rs.rows.map (fun r => r.getD i Value.null)

/-- Python ASCII whitespace as stripped by `str.strip()`. -/
def isPySpace (c : Char) : Bool :=
  c == ' ' || c == '\t' || c == '\n' || c == '\r' || c == '\x0B' || c == '\x0C'

/-- `str.lstrip()`: drop leading whitespace. -/
def pyStripLeft (l : List Char) : List Char :=
  l.dropWhile isPySpace

/-- `str.rstrip()`: drop trailing whitespace. -/
def rstripRec : List Char → List Char
  | [] => []
  | c :: t =>
    let r := rstripRec t
    if isPySpace c && r.isEmpty then [] else c :: r

/-- `str.strip()`: drop whitespace at both ends. -/
def pyStrip (l : List Char) : List Char :=
  rstripRec (pyStripLeft l)

/-- `s.startswith(p)`: does `p` lead the list? -/
def leadsWith : List Char → List Char → Bool
  | [], _ => true
  | _ :: _, [] => false
  | p :: ps, c :: cs => if p = c then leadsWith ps cs else false

/-- Substring occurrence test (`p in t` for Python strings). -/
def occursIn : List Char → List Char → Bool
  | p, [] => p.isEmpty
  | p, c :: cs => leadsWith p (c :: cs) || occursIn p cs

/-- Prepend a character to the first piece of a split (helper for `splitCh`). -/
def consLine (c : Char) : List (List Char) → List (List Char)
  | [] => [[c]]
  | l :: ls => (c :: l) :: ls

/-- Python `str.splitlines` (restricted to the separator `ch`): every
occurrence of `ch` terminates a piece, a trailing separator adds no empty
piece, and the empty string has no pieces.  `splitCh '\n'` models
`splitlines()`, `splitCh ' '` is used to read back whitespace-separated
fields. -/
def splitCh (ch : Char) : List Char → List (List Char)
  | [] => []
  | c :: t => if c = ch then [] :: splitCh ch t else consLine c (splitCh ch t)

/-- Python `sep.join` for a one-character separator. -/
def joinCh (ch : Char) : List (List Char) → List Char
  | [] => []
  | [l] => l
  | l :: ls => l ++ ch :: joinCh ch ls

/-- The fenced-code-block marker. -/
def fence : List Char := "```".toList

/-- Post-processing of the generation response in `question_to_sql`
(chatbot.py lines 60–63): strip, and if the stripped text starts with the
fence marker, keep only the lines whose stripped form does not start with the
marker, rejoin them, and strip again. -/
def question_to_sql_post (resp : List Char) : List Char :=
  let sql := pyStrip resp
  let sql2 :=
    if leadsWith fence sql then
      joinCh '\n' ((splitCh '\n' sql).filter (fun l => !(leadsWith fence (pyStrip l))))
    else sql
  pyStrip sql2

/-- The fixed text preceding the user question in the prompt f-string of
`question_to_sql`. -/
def promptHead : List Char :=
  ("\nYou are a helpful assistant that generates SQL queries for an SQLite database.\n\nHere is the database schema:\n\nTable: AdSales\n- date\n- item_id\n- ad_sales\n- impressions\n- ad_spend\n- clicks\n- units_sold\n\nTable: TotalSales\n- date\n- item_id\n- total_sales\n- total_units_ordered\n\nTable: Eligibility\n- eligibility_datetime_utc\n- item_id\n- eligibility\n- message\n\nQuestion: \"").toList

/-- The fixed text following the user question in the prompt f-string of
`question_to_sql`. -/
def promptTail : List Char :=
  ("\"\n\nWrite a syntactically correct SQL query using only the columns above.\nOnly return the raw SQL query.\nDo NOT use triple backticks or markdown formatting.\n").toList

/-- The composed prompt (`full_prompt` in `question_to_sql`). -/
def full_prompt (prompt : List Char) : List Char :=
  promptHead ++ prompt ++ promptTail

/-- `question_to_sql` (chatbot.py lines 26–63).  The remote generation call
`model.generate_content` is an external collaborator modelled by `gen`; a
raised exception is an `Except.error`, which the source does not catch, so it
propagates to the caller unchanged. -/
def question_to_sql {ε : Type} (gen : List Char → Except ε (List Char))
    (prompt : List Char) : Except ε (List Char) :=
  match gen (full_prompt prompt) with
  | Except.error e => Except.error e
  | Except.ok txt => Except.ok (question_to_sql_post txt)

/-- The reply of the SQLite engine to `cursor.execute` + `cursor.fetchall` +
`cursor.description`: either a raised engine fault (with its message text), or
fetched rows together with optional column metadata (`description` is `None`
for statements that return no rows, e.g. INSERT or UPDATE). -/
inductive EngineReply
  | fault (msg : List Char)
  | rows (descr : Option (List (List Char))) (rws : List (List Value))
deriving DecidableEq

/-- Prefix of every error string built by `execute_sql` (`f"Error: {e}"`). -/
def errPre : List Char := "Error: ".toList

/-- Message of the Python `TypeError` raised by iterating over a `None`
`cursor.description` in `[desc[0] for desc in cursor.description]`. -/
def noneIterMsg : List Char := "'NoneType' object is not iterable".toList

/-- `execute_sql` (chatbot.py lines 66–74).  The engine is an external,
stateful collaborator: `engine q st` performs the statement's effects on the
store state and replies.  Everything inside the `try` block is guarded: an
engine fault, or the `TypeError` raised while building the column list from an
absent `cursor.description`, becomes the string `f"Error: {e}"`; otherwise the
fetched rows and column names are materialized into a `ResultSet`.  The state
update made by the engine persists in every branch. -/
def execute_sql {σ : Type} (engine : List Char → σ → σ × EngineReply)
    (q : List Char) (st : σ) : σ × Except (List Char) ResultSet :=
  match engine q st with
  | (st', EngineReply.fault m) => (st', Except.error (errPre ++ m))
  | (st', EngineReply.rows none _) => (st', Except.error (errPre ++ noneIterMsg))
  | (st', EngineReply.rows (some cols) rws) => (st', Except.ok (ResultSet.mk cols rws))

/-- A chart drawn by `plot_if_possible`: either the two-column line/marker
chart or the one-column single-point chart.  A figure on which nothing was
plotted is "no chart". -/
inductive Chart
  | line (title xlabel ylabel : List Char) (xs : List (List Char)) (ys : List Value)
  | point (title : List Char) (x : List Char) (y : Value)
deriving DecidableEq

/-- `plot_if_possible` (chatbot.py lines 81–104).  `df.empty` is true when the
frame has no rows or no columns.  With exactly two columns and a numeric second
column it plots `df[x_col].astype(str)` against `df[y_col]` with title
`f"{y_col} by {x_col}"`; with exactly one numeric column it plots the single
point `([label], [df.iloc[0, 0]])` titled with the column name; otherwise the
figure stays blank (no chart). -/
def plot_if_possible (df : ResultSet) : Option Chart :=
  if df.rows.isEmpty || df.columns.isEmpty then none
  else if df.columns.length = 2 then
    if numericDtype (colVals df 1) then
      some (Chart.line
        (df.columns.getD 1 [] ++ (" by ").toList ++ df.columns.getD 0 [])
        (df.columns.getD 0 [])
        (df.columns.getD 1 [])
        ((colVals df 0).map valStr)
        (colVals df 1))
    else none
  else if df.columns.length = 1 ∧ numericDtype (colVals df 0) = true then
    some (Chart.point (df.columns.getD 0 []) (df.columns.getD 0 [])
      ((df.rows.headD []).headD Value.null))
  else none

/-- `result.to_dict(orient="records")` (api_ask, chatbot.py line 188): one
column-name-to-value mapping per row, in row order. -/
def to_dict_records (rs : ResultSet) : List (List (List Char × Value)) :=
  rs.rows.map (fun r => rs.columns.zip r)

/-- Width of column `i` in the pandas text rendering: the maximum of the
header length and the rendered cell lengths. -/
def colWidth (rs : ResultSet) (i : Nat) : Nat :=
  max (rs.columns.getD i []).length
    (((colVals rs i).map (fun v => (valStr v).length)).foldr max 0)

/-- Per-column widths of the pandas text rendering. -/
def widths (rs : ResultSet) : List Nat :=
  (List.range rs.columns.length).map (colWidth rs)

/-- Right-justify a field to width `w` (pandas pads fields with spaces on the
left). -/
def padL (w : Nat) (f : List Char) : List Char :=
  List.replicate (w - f.length) ' ' ++ f

/-- One line of the pandas text rendering: the padded fields separated by a
space. -/
def renderRow (ws : List Nat) (fields : List (List Char)) : List Char :=
  joinCh ' ' (List.zipWith padL ws fields)

/-- `result.to_string(index=False)` (ask_question, chatbot.py line 130),
modelled: an aligned plain-text table, one header line of the column names
followed by one line per row, each field padded to its column width, with no
index column. -/
def to_string (rs : ResultSet) : List Char :=
  joinCh '\n' (renderRow (widths rs) rs.columns
    :: rs.rows.map (fun r => renderRow (widths rs) (r.map valStr)))

/-- Whitespace-separated fields of a rendered line (used to read a rendering
back). -/
def wsTokens (l : List Char) : List (List Char) :=
  (splitCh ' ' l).filter (fun t => !t.isEmpty)

/-- The call `result.to_string(index=False)` with the result set it leaves
behind: the source only reads `result`, so the returned result set is the
input. -/
def toDisplayTextCall (rs : ResultSet) : List Char × ResultSet :=
  (to_string rs, rs)

/-- The call `result.to_dict(orient="records")` with the result set it leaves
behind. -/
def toRecordsCall (rs : ResultSet) : List (List (List Char × Value)) × ResultSet :=
  (to_dict_records rs, rs)

/-- The call `plot_if_possible(result)` with the result set it leaves behind:
the function reads `df` (its `astype(str)` allocates a fresh series) and never
writes to it. -/
def plotCall (rs : ResultSet) : Option Chart × ResultSet :=
  (plot_if_possible rs, rs)

/-- The body of the `/ask` response: a success-shaped body has exactly the
keys `question`, `sql`, `result`; a failure-shaped body has exactly the keys
`question`, `sql`, `error`. -/
inductive ApiBody
  | result (records : List (List (List Char × Value)))
  | error (msg : List Char)
deriving DecidableEq

/-- The HTTP response of `api_ask`: FastAPI wraps a returned dict in a
response with the default success status code 200 in both branches. -/
structure ApiResponse where
  status : Nat
  question : List Char
  sql : List Char
  body : ApiBody
deriving DecidableEq

/-- `api_ask` (chatbot.py lines 180–195): synthesize, execute, and return a
dict; both the result branch and the error branch return a plain dict, so
FastAPI serves both with the same success status code.  An uncaught synthesis
exception escapes the handler (`Except.error`). -/
def api_ask {ε σ : Type} (gen : List Char → Except ε (List Char))
    (engine : List Char → σ → σ × EngineReply)
    (question : List Char) (st : σ) : σ × Except ε ApiResponse :=
  match question_to_sql gen question with
  | Except.error e => (st, Except.error e)
  | Except.ok sql =>
    match execute_sql engine sql st with
    | (st', Except.ok df) =>
      (st', Except.ok (ApiResponse.mk 200 question sql (ApiBody.result (to_dict_records df))))
    | (st', Except.error m) =>
      (st', Except.ok (ApiResponse.mk 200 question sql (ApiBody.error m)))

/-! ### Basic lemmas about splitting and joining -/

lemma consLine_ne_nil (c : Char) (ls : List (List Char)) : consLine c ls ≠ [] := by
  cases ls <;> simp [consLine]

lemma splitCh_nil (ch : Char) : splitCh ch [] = [] := rfl

lemma splitCh_cons (ch c : Char) (t : List Char) :
    splitCh ch (c :: t) =
      if c = ch then [] :: splitCh ch t else consLine c (splitCh ch t) := rfl

lemma splitCh_eq_nil_iff {ch : Char} {t : List Char} : splitCh ch t = [] ↔ t = [] := by
  constructor
  · intro h
    cases t with
    | nil => rfl
    | cons c t' =>
      rw [splitCh_cons] at h
      by_cases hc : c = ch
      · simp [hc] at h
      · simp [hc] at h
        exact absurd h (consLine_ne_nil _ _)
  · intro h
    subst h
    rfl

lemma splitCh_append_cons (ch : Char) {l : List Char} (h : ch ∉ l) (t : List Char) :
    splitCh ch (l ++ ch :: t) = l :: splitCh ch t := by
  induction l with
  | nil => simp [splitCh_cons]
  | cons c l' ih =>
    have hc : c ≠ ch := fun e => h (by simp [e])
    have h' : ch ∉ l' := fun hm => h (List.mem_cons_of_mem _ hm)
    simp only [List.cons_append, splitCh_cons, if_neg hc, ih h']
    rfl

lemma splitCh_of_not_mem (ch : Char) {l : List Char} (h : ch ∉ l) (hne : l ≠ []) :
    splitCh ch l = [l] := by
  induction l with
  | nil => exact absurd rfl hne
  | cons c l' ih =>
    have hc : c ≠ ch := fun e => h (by simp [e])
    have h' : ch ∉ l' := fun hm => h (List.mem_cons_of_mem _ hm)
    rw [splitCh_cons, if_neg hc]
    by_cases hl : l' = []
    · subst hl
      rfl
    · rw [ih h' hl]
      rfl

lemma not_mem_of_mem_splitCh {ch : Char} {t x : List Char}
    (hx : x ∈ splitCh ch t) : ch ∉ x := by
  induction t generalizing x with
  | nil => simp [splitCh_nil] at hx
  | cons c t' ih =>
    rw [splitCh_cons] at hx
    by_cases hc : c = ch
    · rw [if_pos hc] at hx
      rcases List.mem_cons.mp hx with h | h
      · subst h
        simp
      · exact ih h
    · rw [if_neg hc] at hx
      cases hs : splitCh ch t' with
      | nil =>
        rw [hs] at hx
        simp [consLine] at hx
        subst hx
        intro hm
        exact hc ((List.mem_singleton.mp hm).symm)
      | cons l ls =>
        rw [hs] at hx
        simp only [consLine, List.mem_cons] at hx
        rcases hx with h | h
        · subst h
          intro hm
          rcases List.mem_cons.mp hm with e | e
          · exact hc e.symm
          · have : l ∈ splitCh ch t' := by rw [hs]; exact List.mem_cons_self _ _
            exact ih this e
        · exact ih (by rw [hs]; exact List.mem_cons_of_mem _ h)

lemma joinCh_nil (ch : Char) : joinCh ch [] = [] := rfl

lemma joinCh_single (ch : Char) (l : List Char) : joinCh ch [l] = l := rfl

lemma joinCh_cons₂ (ch : Char) (l m : List Char) (t : List (List Char)) :
    joinCh ch (l :: m :: t) = l ++ ch :: joinCh ch (m :: t) := rfl

lemma mem_splitCh_joinCh {ch : Char} {ls : List (List Char)}
    (hfree : ∀ l ∈ ls, ch ∉ l) :
    ∀ x ∈ splitCh ch (joinCh ch ls), x ∈ ls := by
  induction ls with
  | nil =>
    intro x hx
    simp [joinCh_nil, splitCh_nil] at hx
  | cons l ls' ih =>
    intro x hx
    cases ls' with
    | nil =>
      rw [joinCh_single] at hx
      by_cases hl : l = []
      · subst hl
        simp [splitCh_nil] at hx
      · rw [splitCh_of_not_mem ch (hfree l (List.mem_cons_self _ _)) hl] at hx
        simpa using hx
    | cons m t =>
      rw [joinCh_cons₂, splitCh_append_cons ch (hfree l (List.mem_cons_self _ _))] at hx
      rcases List.mem_cons.mp hx with h | h
      · subst h
        exact List.mem_cons_self _ _
      · exact List.mem_cons_of_mem _
          (ih (fun a ha => hfree a (List.mem_cons_of_mem _ ha)) x h)

lemma splitCh_joinCh_exact {ch : Char} {ls : List (List Char)}
    (hfree : ∀ l ∈ ls, ch ∉ l ∧ l ≠ []) :
    splitCh ch (joinCh ch ls) = ls := by
  induction ls with
  | nil => simp [joinCh_nil, splitCh_nil]
  | cons l ls' ih =>
    cases ls' with
    | nil =>
      rw [joinCh_single]
      exact splitCh_of_not_mem ch (hfree l (List.mem_cons_self _ _)).1
        (hfree l (List.mem_cons_self _ _)).2
    | cons m t =>
      rw [joinCh_cons₂, splitCh_append_cons ch (hfree l (List.mem_cons_self _ _)).1]
      rw [ih (fun a ha => hfree a (List.mem_cons_of_mem _ ha))]

/-! ### Lemmas about whitespace stripping -/

lemma rstripRec_nil : rstripRec [] = [] := rfl

lemma rstripRec_cons (c : Char) (t : List Char) :
    rstripRec (c :: t) =
      if isPySpace c && (rstripRec t).isEmpty then [] else c :: rstripRec t := rfl

lemma rstripRec_eq_nil_iff {t : List Char} :
    rstripRec t = [] ↔ ∀ c ∈ t, isPySpace c = true := by
  induction t with
  | nil => simp [rstripRec_nil]
  | cons c t' ih =>
    rw [rstripRec_cons]
    constructor
    · intro h
      by_cases hcond : (isPySpace c && (rstripRec t').isEmpty) = true
      · have hsp : isPySpace c = true := (Bool.and_eq_true _ _ |>.mp hcond).1
        have hr : rstripRec t' = [] := by
          have h2 := (Bool.and_eq_true _ _ |>.mp hcond).2
          simpa [List.isEmpty_iff] using h2
        intro a ha
        rcases List.mem_cons.mp ha with rfl | ha'
        · exact hsp
        · exact ih.mp hr a ha'
      · rw [if_neg hcond] at h
        cases h
    · intro h
      have hsp : isPySpace c = true := h c (List.mem_cons_self _ _)
      have hr : rstripRec t' = [] := ih.mpr fun a ha => h a (List.mem_cons_of_mem _ ha)
      rw [if_pos (by simp [hsp, hr])]

lemma rstripRec_append (u v : List Char) :
    rstripRec (u ++ v) =
      if (rstripRec v).isEmpty then rstripRec u else u ++ rstripRec v := by
  induction u with
  | nil =>
    by_cases h : (rstripRec v).isEmpty <;> simp [h]
    · simpa [List.isEmpty_iff] using h
  | cons c u' ih =>
    rw [List.cons_append, rstripRec_cons, ih, rstripRec_cons]
    by_cases hv : (rstripRec v).isEmpty
    · simp [hv]
    · have hne : u' ++ rstripRec v ≠ [] := by
        intro h
        rcases List.append_eq_nil.mp h with ⟨_, h2⟩
        rw [h2] at hv
        exact hv rfl
      have : (u' ++ rstripRec v).isEmpty = false := by
        simpa [List.isEmpty_iff] using hne
      simp [hv, this]

lemma pyStripLeft_nil : pyStripLeft [] = [] := rfl

lemma pyStripLeft_cons (c : Char) (t : List Char) :
    pyStripLeft (c :: t) = if isPySpace c then pyStripLeft t else c :: t := by
  by_cases h : isPySpace c <;> simp [pyStripLeft, List.dropWhile, h]

lemma pyStripLeft_eq_nil_of_all_space {t : List Char}
    (h : ∀ c ∈ t, isPySpace c = true) : pyStripLeft t = [] := by
  induction t with
  | nil => rfl
  | cons c t' ih =>
    rw [pyStripLeft_cons, if_pos (h c (List.mem_cons_self _ _))]
    exact ih fun a ha => h a (List.mem_cons_of_mem _ ha)

lemma pyStripLeft_idem (t : List Char) : pyStripLeft (pyStripLeft t) = pyStripLeft t := by
  induction t with
  | nil => rfl
  | cons c t' ih =>
    rw [pyStripLeft_cons]
    by_cases h : isPySpace c
    · simp [h, ih]
    · simp [pyStripLeft_cons, h]

lemma rstripRec_idem (t : List Char) : rstripRec (rstripRec t) = rstripRec t := by
  induction t with
  | nil => rfl
  | cons c t' ih =>
    by_cases hcond : (isPySpace c && (rstripRec t').isEmpty) = true
    · rw [rstripRec_cons, if_pos hcond, rstripRec_nil]
    · rw [rstripRec_cons, if_neg hcond, rstripRec_cons, ih, if_neg hcond]

lemma rstripRec_ne_newline (t : List Char) : rstripRec t ≠ ['\n'] := by
  intro h
  have hidem := rstripRec_idem t
  rw [h] at hidem
  have hnl : rstripRec ['\n'] = [] := by decide
  rw [hnl] at hidem
  cases hidem

lemma stripLeft_rstripRec_comm (t : List Char) :
    pyStripLeft (rstripRec t) = rstripRec (pyStripLeft t) := by
  induction t with
  | nil => rfl
  | cons c t' ih =>
    rw [rstripRec_cons, pyStripLeft_cons]
    by_cases hsp : isPySpace c
    · by_cases hr : rstripRec t' = []
      · have : (rstripRec t').isEmpty = true := by simp [hr]
        rw [if_pos (by simp [hsp, this]), if_pos hsp, ← ih, hr]
      · have : (rstripRec t').isEmpty = false := by
          simpa [List.isEmpty_iff] using hr
        rw [if_neg (by simp [this]), if_pos hsp, pyStripLeft_cons, if_pos hsp, ih]
    · have h1 : (isPySpace c && (rstripRec t').isEmpty) = false := by simp [hsp]
      rw [if_neg (by simp [h1]), if_neg hsp, pyStripLeft_cons, if_neg hsp, rstripRec_cons]
      simp [h1]

lemma pyStrip_idem (t : List Char) : pyStrip (pyStrip t) = pyStrip t := by
  unfold pyStrip
  rw [stripLeft_rstripRec_comm, pyStripLeft_idem, rstripRec_idem]

/-! ### Lemmas about `leadsWith` and the fence marker -/

lemma leadsWith_append_self (p w : List Char) : leadsWith p (p ++ w) = true := by
  induction p with
  | nil => rfl
  | cons c p' ih => simp [leadsWith, ih]

lemma leadsWith_iff {p v : List Char} : leadsWith p v = true ↔ ∃ w, v = p ++ w := by
  induction p generalizing v with
  | nil =>
    simp [leadsWith]
  | cons c p' ih =>
    cases v with
    | nil => simp [leadsWith]
    | cons d v' =>
      by_cases hc : c = d
      · subst hc
        have hl : leadsWith (c :: p') (c :: v') = leadsWith p' v' := by
          simp [leadsWith]
        rw [hl, ih]
        constructor
        · rintro ⟨w, rfl⟩
          exact ⟨w, rfl⟩
        · rintro ⟨w, hw⟩
          exact ⟨w, by simpa using hw⟩
      · have hl : leadsWith (c :: p') (d :: v') = false := by
          simp [leadsWith, hc]
        rw [hl]
        constructor
        · intro h
          cases h
        · rintro ⟨w, hw⟩
          injection hw with h1 h2
          exact absurd h1.symm hc

lemma rstripRec_self_append (t : List Char) : ∃ u, t = rstripRec t ++ u := by
  induction t with
  | nil => exact ⟨[], rfl⟩
  | cons c t' ih =>
    by_cases hcond : (isPySpace c && (rstripRec t').isEmpty) = true
    · exact ⟨c :: t', by rw [rstripRec_cons, if_pos hcond]; rfl⟩
    · obtain ⟨u, hu⟩ := ih
      refine ⟨u, ?_⟩
      rw [rstripRec_cons, if_neg hcond, List.cons_append, ← hu]

lemma leadsWith_fence_rstrip (v : List Char) :
    leadsWith fence (rstripRec v) = leadsWith fence v := by
  cases h : leadsWith fence v with
  | false =>
    cases hx : leadsWith fence (rstripRec v) with
    | false => rfl
    | true =>
      exfalso
      rcases leadsWith_iff.mp hx with ⟨w, hw⟩
      rcases rstripRec_self_append v with ⟨u, hu⟩
      have hv : leadsWith fence v = true := by
        rw [hu, hw, List.append_assoc]
        exact leadsWith_append_self _ _
      rw [h] at hv
      cases hv
  | true =>
    rcases leadsWith_iff.mp h with ⟨w, rfl⟩
    rw [rstripRec_append]
    by_cases hw : (rstripRec w).isEmpty
    · rw [if_pos hw]
      have hf : rstripRec fence = fence := by decide
      rw [hf]
      exact leadsWith_iff.mpr ⟨[], (List.append_nil _).symm⟩
    · rw [if_neg hw]
      exact leadsWith_append_self _ _

lemma leadsWith_fence_pyStrip (l : List Char) :
    leadsWith fence (pyStrip l) = leadsWith fence (pyStripLeft l) := by
  unfold pyStrip
  exact leadsWith_fence_rstrip _

lemma mem_of_mem_splitCh {ch : Char} {t l : List Char} {a : Char}
    (hl : l ∈ splitCh ch t) (ha : a ∈ l) : a ∈ t := by
  induction t generalizing l with
  | nil => simp [splitCh_nil] at hl
  | cons c t' ih =>
    rw [splitCh_cons] at hl
    by_cases hc : c = ch
    · rw [if_pos hc] at hl
      rcases List.mem_cons.mp hl with rfl | h
      · cases ha
      · exact List.mem_cons_of_mem _ (ih h ha)
    · rw [if_neg hc] at hl
      cases hs : splitCh ch t' with
      | nil =>
        rw [hs] at hl
        simp [consLine] at hl
        subst hl
        have ha2 : a = c := by simpa using ha
        simp [ha2]
      | cons h0 rest =>
        rw [hs] at hl
        simp only [consLine, List.mem_cons] at hl
        rcases hl with rfl | h
        · rcases List.mem_cons.mp ha with rfl | h2
          · exact List.mem_cons_self _ _
          · exact List.mem_cons_of_mem _
              (ih (l := h0) (by rw [hs]; exact List.mem_cons_self _ _) h2)
        · exact List.mem_cons_of_mem _
            (ih (by rw [hs]; exact List.mem_cons_of_mem _ h) ha)

lemma splitCh_eq_singleton_nil {ch : Char} {u : List Char}
    (h : splitCh ch u = [[]]) : u = [ch] := by
  cases u with
  | nil => simp [splitCh_nil] at h
  | cons c u' =>
    rw [splitCh_cons] at h
    by_cases hc : c = ch
    · rw [if_pos hc] at h
      have h2 : splitCh ch u' = [] := by simpa using h
      rw [splitCh_eq_nil_iff.mp h2, hc]
    · rw [if_neg hc] at h
      cases hs : splitCh ch u' with
      | nil =>
        rw [hs] at h
        simp [consLine] at h
      | cons h0 rest =>
        rw [hs] at h
        simp [consLine] at h

/-! ### How stripping a string transforms its lines -/

lemma mem_splitCh_pyStripLeft {t x : List Char}
    (hx : x ∈ splitCh '\n' (pyStripLeft t)) :
    ∃ y ∈ splitCh '\n' t, pyStripLeft x = pyStripLeft y := by
  induction t generalizing x with
  | nil =>
    simp [pyStripLeft_nil, splitCh_nil] at hx
  | cons c t' ih =>
    rw [pyStripLeft_cons] at hx
    by_cases hsp : isPySpace c
    · rw [if_pos hsp] at hx
      obtain ⟨y, hy, he⟩ := ih hx
      by_cases hc : c = '\n'
      · exact ⟨y, by rw [splitCh_cons, if_pos hc]; exact List.mem_cons_of_mem _ hy, he⟩
      · cases hs : splitCh '\n' t' with
        | nil =>
          rw [hs] at hy
          cases hy
        | cons h0 rest =>
          rw [hs] at hy
          rcases List.mem_cons.mp hy with rfl | hy'
          · refine ⟨c :: y, ?_, ?_⟩
            · rw [splitCh_cons, if_neg hc, hs]
              simp [consLine]
            · rw [he, pyStripLeft_cons, if_pos hsp]
          · refine ⟨y, ?_, he⟩
            rw [splitCh_cons, if_neg hc, hs]
            simp only [consLine, List.mem_cons]
            right
            exact hy'
    · rw [if_neg hsp] at hx
      exact ⟨x, hx, rfl⟩

lemma splitCh_rstripRec (t : List Char) :
    splitCh '\n' (rstripRec t) = [] ∨
    ∃ pre lst suf, splitCh '\n' t = pre ++ lst :: suf ∧
      splitCh '\n' (rstripRec t) = pre ++ [rstripRec lst] := by
  induction t with
  | nil =>
    left
    rfl
  | cons c t' ih =>
    by_cases hcond : (isPySpace c && (rstripRec t').isEmpty) = true
    · left
      rw [rstripRec_cons, if_pos hcond, splitCh_nil]
    · rw [rstripRec_cons, if_neg hcond]
      by_cases hc : c = '\n'
      · subst hc
        have hr : rstripRec t' ≠ [] := by
          intro h0
          apply hcond
          simp [h0, isPySpace]
        rcases ih with hnil | ⟨pre, lst, suf, h1, h2⟩
        · exact absurd (splitCh_eq_nil_iff.mp hnil) hr
        · right
          refine ⟨[] :: pre, lst, suf, ?_, ?_⟩
          · rw [splitCh_cons, if_pos rfl, h1]
            rfl
          · rw [splitCh_cons, if_pos rfl, h2]
            rfl
      · rcases ih with hnil | ⟨pre, lst, suf, h1, h2⟩
        · have hr : rstripRec t' = [] := splitCh_eq_nil_iff.mp hnil
          have hnsp : isPySpace c = false := by
            cases hspc : isPySpace c
            · rfl
            · exfalso
              apply hcond
              simp [hspc, hr]
          have hallws : ∀ a ∈ t', isPySpace a = true := rstripRec_eq_nil_iff.mp hr
          right
          cases hs : splitCh '\n' t' with
          | nil =>
            refine ⟨[], [c], [], ?_, ?_⟩
            · rw [splitCh_cons, if_neg hc, hs]
              simp [consLine]
            · rw [splitCh_cons, if_neg hc, hr, splitCh_nil]
              have hcc : rstripRec [c] = [c] := by
                rw [rstripRec_cons, rstripRec_nil]
                simp [hnsp]
              simp [consLine, hcc]
          | cons h0 rest =>
            have hh0ws : ∀ a ∈ h0, isPySpace a = true := by
              intro a ha
              exact hallws a
                (mem_of_mem_splitCh (by rw [hs]; exact List.mem_cons_self _ _) ha)
            have hh0r : rstripRec h0 = [] := rstripRec_eq_nil_iff.mpr hh0ws
            refine ⟨[], c :: h0, rest, ?_, ?_⟩
            · rw [splitCh_cons, if_neg hc, hs]
              simp [consLine]
            · rw [splitCh_cons, if_neg hc, hr, splitCh_nil]
              have hkey : rstripRec (c :: h0) = [c] := by
                rw [rstripRec_cons, hh0r]
                simp [hnsp]
              simp [consLine, hkey]
        · right
          cases pre with
          | nil =>
            refine ⟨[], c :: lst, suf, ?_, ?_⟩
            · rw [splitCh_cons, if_neg hc, h1]
              simp [consLine]
            · rw [splitCh_cons, if_neg hc, h2]
              have hkey : rstripRec (c :: lst) = c :: rstripRec lst := by
                rw [rstripRec_cons]
                by_cases hrl : rstripRec lst = []
                · exfalso
                  rw [hrl] at h2
                  have hsing : splitCh '\n' (rstripRec t') = [[]] := by
                    simpa using h2
                  exact rstripRec_ne_newline t' (splitCh_eq_singleton_nil hsing)
                · have hne : (rstripRec lst).isEmpty = false := by
                    simpa [List.isEmpty_iff] using hrl
                  simp [hne]
              simp [consLine, hkey]
          | cons p ps =>
            refine ⟨(c :: p) :: ps, lst, suf, ?_, ?_⟩
            · rw [splitCh_cons, if_neg hc, h1]
              simp [consLine]
            · rw [splitCh_cons, if_neg hc, h2]
              simp [consLine]

lemma noFenceLine_pyStrip {t : List Char}
    (h : ∀ y ∈ splitCh '\n' t, leadsWith fence (pyStripLeft y) = false) :
    ∀ x ∈ splitCh '\n' (pyStrip t), leadsWith fence (pyStripLeft x) = false := by
  have hu : ∀ y ∈ splitCh '\n' (pyStripLeft t), leadsWith fence (pyStripLeft y) = false := by
    intro y hy
    obtain ⟨z, hz, he⟩ := mem_splitCh_pyStripLeft hy
    rw [he]
    exact h z hz
  intro x hx
  unfold pyStrip at hx
  rcases splitCh_rstripRec (pyStripLeft t) with hnil | ⟨pre, lst, suf, h1, h2⟩
  · rw [hnil] at hx
    cases hx
  · rw [h2] at hx
    rcases List.mem_append.mp hx with hpre | hlast
    · exact hu x (by rw [h1]; exact List.mem_append_left _ hpre)
    · have hx2 : x = rstripRec lst := List.mem_singleton.mp hlast
      subst hx2
      have hlst : lst ∈ splitCh '\n' (pyStripLeft t) := by
        rw [h1]
        exact List.mem_append_right _ (List.mem_cons_self _ _)
      calc leadsWith fence (pyStripLeft (rstripRec lst))
          = leadsWith fence (rstripRec (pyStripLeft lst)) := by
            rw [stripLeft_rstripRec_comm]
        _ = leadsWith fence (pyStripLeft lst) := leadsWith_fence_rstrip _
        _ = false := hu lst hlst

/-! ### Reading whitespace-separated fields back from a rendered line -/

lemma wsTokens_nil : wsTokens [] = [] := rfl

lemma wsTokens_space_cons (r : List Char) : wsTokens (' ' :: r) = wsTokens r := by
  simp [wsTokens, splitCh_cons]

lemma wsTokens_replicate (n : Nat) (r : List Char) :
    wsTokens (List.replicate n ' ' ++ r) = wsTokens r := by
  induction n with
  | zero => rfl
  | succ n ih => rw [List.replicate_succ, List.cons_append, wsTokens_space_cons, ih]

lemma wsTokens_field_sep {f : List Char} (hf : ' ' ∉ f) (hne : f ≠ [])
    (r : List Char) : wsTokens (f ++ ' ' :: r) = f :: wsTokens r := by
  unfold wsTokens
  rw [splitCh_append_cons ' ' hf]
  have : f.isEmpty = false := by simpa [List.isEmpty_iff] using hne
  simp [this]

lemma wsTokens_field {f : List Char} (hf : ' ' ∉ f) (hne : f ≠ []) :
    wsTokens f = [f] := by
  unfold wsTokens
  rw [splitCh_of_not_mem ' ' hf hne]
  have : f.isEmpty = false := by simpa [List.isEmpty_iff] using hne
  simp [this]

lemma wsTokens_renderRow : ∀ (wsl : List Nat) (fs : List (List Char)),
    fs.length = wsl.length → (∀ f ∈ fs, f ≠ [] ∧ ' ' ∉ f) →
    wsTokens (renderRow wsl fs) = fs := by
  intro wsl fs
  induction fs generalizing wsl with
  | nil =>
    intro _ _
    cases wsl <;> rfl
  | cons f fs' ih =>
    intro hlen hok
    cases wsl with
    | nil => cases hlen
    | cons w wsl' =>
      have hf := hok f (List.mem_cons_self _ _)
      cases fs' with
      | nil =>
        unfold renderRow
        have : List.zipWith padL (w :: wsl') [f] = [padL w f] := by
          cases wsl' <;> rfl
        rw [this, joinCh_single]
        unfold padL
        rw [wsTokens_replicate]
        exact wsTokens_field hf.2 hf.1
      | cons g fs'' =>
        cases wsl' with
        | nil => cases hlen
        | cons w2 wsl'' =>
          unfold renderRow
          have hz : List.zipWith padL (w :: w2 :: wsl'') (f :: g :: fs'') =
              padL w f :: List.zipWith padL (w2 :: wsl'') (g :: fs'') := rfl
          have hz2 : List.zipWith padL (w2 :: wsl'') (g :: fs'') =
              padL w2 g :: List.zipWith padL wsl'' fs'' := rfl
          rw [hz, hz2, joinCh_cons₂, ← hz2]
          show wsTokens (padL w f ++ ' ' :: renderRow (w2 :: wsl'') (g :: fs'')) = _
          unfold padL
          rw [List.append_assoc, wsTokens_replicate,
            wsTokens_field_sep hf.2 hf.1,
            ih (w2 :: wsl'') (by simpa using hlen)
              (fun a ha => hok a (List.mem_cons_of_mem _ ha))]

lemma mem_joinCh {ch : Char} {ls : List (List Char)} {a : Char}
    (ha : a ∈ joinCh ch ls) : a = ch ∨ ∃ l ∈ ls, a ∈ l := by
  induction ls with
  | nil => cases ha
  | cons l ls' ih =>
    cases ls' with
    | nil =>
      rw [joinCh_single] at ha
      exact Or.inr ⟨l, List.mem_cons_self _ _, ha⟩
    | cons m t =>
      rw [joinCh_cons₂] at ha
      rcases List.mem_append.mp ha with h | h
      · exact Or.inr ⟨l, List.mem_cons_self _ _, h⟩
      · rcases List.mem_cons.mp h with rfl | h2
        · exact Or.inl rfl
        · rcases ih h2 with h3 | ⟨l', hl', ha'⟩
          · exact Or.inl h3
          · exact Or.inr ⟨l', List.mem_cons_of_mem _ hl', ha'⟩

lemma mem_zipWith_padL {wsl : List Nat} {fs : List (List Char)} {l : List Char}
    (hl : l ∈ List.zipWith padL wsl fs) : ∃ w f, f ∈ fs ∧ l = padL w f := by
  induction wsl generalizing fs with
  | nil => cases hl
  | cons w wsl' ih =>
    cases fs with
    | nil => cases hl
    | cons f fs' =>
      rcases List.mem_cons.mp hl with rfl | h
      · exact ⟨w, f, List.mem_cons_self _ _, rfl⟩
      · obtain ⟨w', f', hf', he⟩ := ih h
        exact ⟨w', f', List.mem_cons_of_mem _ hf', he⟩

lemma nlFree_renderRow {wsl : List Nat} {fs : List (List Char)}
    (hfs : ∀ f ∈ fs, '\n' ∉ f) : '\n' ∉ renderRow wsl fs := by
  intro hmem
  rcases mem_joinCh hmem with h | ⟨l, hl, ha⟩
  · cases h
  · obtain ⟨w, f, hf, rfl⟩ := mem_zipWith_padL hl
    rcases List.mem_append.mp ha with h2 | h2
    · have := List.eq_of_mem_replicate h2
      cases this
    · exact hfs f hf h2

lemma renderRow_ne_nil {wsl : List Nat} {fs : List (List Char)}
    (hlen : fs.length = wsl.length) (hfs : ∀ f ∈ fs, f ≠ []) (hne : fs ≠ []) :
    renderRow wsl fs ≠ [] := by
  cases fs with
  | nil => exact absurd rfl hne
  | cons f fs' =>
    cases wsl with
    | nil => cases hlen
    | cons w wsl' =>
      unfold renderRow
      cases fs' with
      | nil =>
        have hz : List.zipWith padL (w :: wsl') [f] = [padL w f] := by
          cases wsl' <;> rfl
        rw [hz, joinCh_single]
        unfold padL
        intro h
        exact hfs f (List.mem_cons_self _ _) (List.append_eq_nil.mp h).2
      | cons g fs'' =>
        cases wsl' with
        | nil => cases hlen
        | cons w2 wsl'' =>
          have hz : List.zipWith padL (w :: w2 :: wsl'') (f :: g :: fs'') =
              padL w f :: List.zipWith padL (w2 :: wsl'') (g :: fs'') := rfl
          have hz2 : List.zipWith padL (w2 :: wsl'') (g :: fs'') =
              padL w2 g :: List.zipWith padL wsl'' fs'' := rfl
          rw [hz, hz2, joinCh_cons₂]
          intro h
          cases (List.append_eq_nil.mp h).2

lemma widths_length (rs : ResultSet) : (widths rs).length = rs.columns.length := by
  simp [widths]

/-! ### Helper lemmas about the plot policy and the renderings -/

lemma numericDtype_ne_nil {vs : List Value} (h : numericDtype vs = true) : vs ≠ [] := by
  intro h0
  subst h0
  simp [numericDtype] at h

lemma rows_ne_nil_of_numeric {rs : ResultSet} {i : Nat}
    (h : numericDtype (colVals rs i) = true) : rs.rows ≠ [] := by
  intro h0
  apply numericDtype_ne_nil h
  simp [colVals, h0]

lemma plot_of_two_numeric {rs : ResultSet} {c1 c2 : List Char}
    (hcols : rs.columns = [c1, c2]) (hnum : numericDtype (colVals rs 1) = true) :
    plot_if_possible rs = some (Chart.line (c2 ++ (" by ").toList ++ c1) c1 c2
      ((colVals rs 0).map valStr) (colVals rs 1)) := by
  have h1 : rs.rows.isEmpty = false := by
    simpa [List.isEmpty_iff] using rows_ne_nil_of_numeric hnum
  simp [plot_if_possible, h1, hcols, hnum]

lemma plot_of_two_nonnumeric {rs : ResultSet}
    (hlen : rs.columns.length = 2) (hnum : numericDtype (colVals rs 1) = false) :
    plot_if_possible rs = none := by
  by_cases he : (rs.rows.isEmpty || rs.columns.isEmpty) = true
  · simp [plot_if_possible, he]
  · simp [plot_if_possible, he, hlen, hnum]

lemma plot_of_one_numeric {rs : ResultSet} {c : List Char}
    (hcols : rs.columns = [c]) (hnum : numericDtype (colVals rs 0) = true) :
    plot_if_possible rs = some (Chart.point c c ((rs.rows.headD []).headD Value.null)) := by
  have h1 : rs.rows.isEmpty = false := by
    simpa [List.isEmpty_iff] using rows_ne_nil_of_numeric hnum
  simp [plot_if_possible, h1, hcols, hnum]

lemma plot_of_empty_rows {rs : ResultSet} (h : rs.rows = []) :
    plot_if_possible rs = none := by
  simp [plot_if_possible, h]

lemma plot_of_other_shape {rs : ResultSet}
    (h2 : ¬(rs.columns.length = 2 ∧ numericDtype (colVals rs 1) = true))
    (h1 : ¬(rs.columns.length = 1 ∧ numericDtype (colVals rs 0) = true)) :
    plot_if_possible rs = none := by
  by_cases he : (rs.rows.isEmpty || rs.columns.isEmpty) = true
  · simp [plot_if_possible, he]
  · by_cases hl2 : rs.columns.length = 2
    · have hnn : numericDtype (colVals rs 1) = false := by
        cases hx : numericDtype (colVals rs 1)
        · rfl
        · exact absurd ⟨hl2, hx⟩ h2
      exact plot_of_two_nonnumeric hl2 hnn
    · simp [plot_if_possible, he, hl2, h1]

lemma splitCh_to_string {rs : ResultSet}
    (hwf : ∀ r ∈ rs.rows, r.length = rs.columns.length)
    (hcols : rs.columns ≠ [])
    (hname : ∀ nm ∈ rs.columns, nm ≠ [] ∧ ' ' ∉ nm ∧ '\n' ∉ nm)
    (hcell : ∀ r ∈ rs.rows, ∀ v ∈ r, valStr v ≠ [] ∧ ' ' ∉ valStr v ∧ '\n' ∉ valStr v) :
    splitCh '\n' (to_string rs) =
      renderRow (widths rs) rs.columns
        :: rs.rows.map (fun r => renderRow (widths rs) (r.map valStr)) := by
  unfold to_string
  apply splitCh_joinCh_exact
  intro l hl
  rcases List.mem_cons.mp hl with rfl | hl2
  · constructor
    · exact nlFree_renderRow fun nm hnm => (hname nm hnm).2.2
    · exact renderRow_ne_nil ((widths_length rs).symm)
        (fun nm hnm => (hname nm hnm).1) hcols
  · obtain ⟨r, hr, rfl⟩ := List.mem_map.mp hl2
    have hflds : ∀ f ∈ r.map valStr, f ≠ [] ∧ ' ' ∉ f ∧ '\n' ∉ f := by
      intro f hf
      obtain ⟨v, hv, rfl⟩ := List.mem_map.mp hf
      exact hcell r hr v hv
    have hlen : (r.map valStr).length = (widths rs).length := by
      rw [List.length_map, widths_length, hwf r hr]
    have hrne : r.map valStr ≠ [] := by
      intro h0
      have : r = [] := by simpa using h0
      subst this
      exact hcols (by simpa using (hwf [] hr).symm)
    constructor
    · exact nlFree_renderRow fun f hf => (hflds f hf).2.2
    · exact renderRow_ne_nil hlen (fun f hf => (hflds f hf).1) hrne

lemma occursIn_append_self (u p : List Char) : occursIn p (u ++ p) = true := by
  induction u with
  | nil =>
    cases p with
    | nil => rfl
    | cons c cs =>
      have hl : leadsWith (c :: cs) (c :: cs) = true := by
        have h := leadsWith_append_self (c :: cs) []
        rwa [List.append_nil] at h
      simp [occursIn, hl]
  | cons c u' ih =>
    simp [occursIn, ih]

lemma to_dict_records_forall₂ (rs : ResultSet)
    (hwf : ∀ r ∈ rs.rows, r.length = rs.columns.length) :
    List.Forall₂ (fun m row => List.map Prod.fst m = rs.columns ∧ List.map Prod.snd m = row)
      (to_dict_records rs) rs.rows := by
  unfold to_dict_records
  have h : ∀ rows : List (List Value), (∀ r ∈ rows, r.length = rs.columns.length) →
      List.Forall₂ (fun m row => List.map Prod.fst m = rs.columns ∧ List.map Prod.snd m = row)
        (rows.map (fun r => rs.columns.zip r)) rows := by
    intro rows hlen
    induction rows with
    | nil => exact List.Forall₂.nil
    | cons r rows' ih =>
      refine List.Forall₂.cons ⟨?_, ?_⟩ (ih fun a ha => hlen a (List.mem_cons_of_mem _ ha))
      · exact List.map_fst_zip _ _ (le_of_eq (hlen r (List.mem_cons_self _ _)).symm)
      · exact List.map_snd_zip _ _ (le_of_eq (hlen r (List.mem_cons_self _ _)))
  exact h rs.rows hwf

/-! ### The claims -/

/-- Claim C1: for every input string, `execute_sql` never raises past the
component boundary: it returns either a materialized `ResultSet` carrying the
engine's column names, or an error string; on an engine fault (e.g. a
syntactically invalid statement) the error string contains the engine's
message text. -/
theorem execute_sql_boundary {σ : Type} (engine : List Char → σ → σ × EngineReply)
    (q : List Char) (st : σ) :
    ((∃ rs, (execute_sql engine q st).2 = Except.ok rs) ∨
      (∃ m, (execute_sql engine q st).2 = Except.error m))
    ∧ (∀ st' m, engine q st = (st', EngineReply.fault m) →
        (execute_sql engine q st).2 = Except.error (errPre ++ m) ∧
          occursIn m (errPre ++ m) = true)
    ∧ (∀ st' cols rws, engine q st = (st', EngineReply.rows (some cols) rws) →
        (execute_sql engine q st).2 = Except.ok (ResultSet.mk cols rws)) := by
  refine ⟨?_, ?_, ?_⟩
  · rcases h : engine q st with ⟨st', reply⟩
    cases reply with
    | fault m =>
      exact Or.inr ⟨errPre ++ m, by simp [execute_sql, h]⟩
    | rows d rws =>
      cases d with
      | none => exact Or.inr ⟨errPre ++ noneIterMsg, by simp [execute_sql, h]⟩
      | some cols => exact Or.inl ⟨ResultSet.mk cols rws, by simp [execute_sql, h]⟩
  · intro st' m h
    exact ⟨by simp [execute_sql, h], occursIn_append_self errPre m⟩
  · intro st' cols rws h
    simp [execute_sql, h]

theorem execute_sql_boundary_witness :
    (fun (q : List Char) (st : Nat) =>
        if q = ("SELEKT * FROM AdSales").toList
        then (st, EngineReply.fault (("near \"SELEKT\": syntax error").toList))
        else (st, EngineReply.rows none []))
      (("SELEKT * FROM AdSales").toList) 0
      = (0, EngineReply.fault (("near \"SELEKT\": syntax error").toList))
    ∧ ((execute_sql
        (fun (q : List Char) (st : Nat) =>
          if q = ("SELEKT * FROM AdSales").toList
          then (st, EngineReply.fault (("near \"SELEKT\": syntax error").toList))
          else (st, EngineReply.rows none []))
        (("SELEKT * FROM AdSales").toList) 0).2
      = Except.error (errPre ++ ("near \"SELEKT\": syntax error").toList)
    ∧ occursIn (("near \"SELEKT\": syntax error").toList)
        (errPre ++ ("near \"SELEKT\": syntax error").toList) = true) := by
  refine ⟨by decide, ?_⟩
  exact (execute_sql_boundary _ _ _).2.1 0 _ (by decide)

/-- Claim C9: a statement the engine executes without fault but with no
result-column metadata (`cursor.description = None`, e.g. INSERT or UPDATE)
makes `execute_sql` return an error value — the guarded column-list
construction raises a `TypeError` — while the engine's state update persists,
so an error result does not imply the store state is unchanged. -/
theorem execute_sql_nonquery_error_state {σ : Type}
    (engine : List Char → σ → σ × EngineReply) (q : List Char) (st : σ) :
    (∀ st' rws, engine q st = (st', EngineReply.rows none rws) →
        execute_sql engine q st = (st', Except.error (errPre ++ noneIterMsg)))
    ∧ ∃ (eng2 : List Char → Nat → Nat × EngineReply) (q2 : List Char) (st2 : Nat),
        (∃ m, (execute_sql eng2 q2 st2).2 = Except.error m) ∧
          (execute_sql eng2 q2 st2).1 ≠ st2 := by
  constructor
  · intro st' rws h
    simp [execute_sql, h]
  · refine ⟨fun _ s => (s + 1, EngineReply.rows none []), [], 0,
      ⟨errPre ++ noneIterMsg, rfl⟩, by decide⟩

theorem execute_sql_nonquery_error_state_witness :
    (fun (_ : List Char) (s : Nat) =>
        (s + 1, EngineReply.rows none ([] : List (List Value)))) ([] : List Char) 0
      = (1, EngineReply.rows none [])
    ∧ execute_sql
        (fun (_ : List Char) (s : Nat) => (s + 1, EngineReply.rows none []))
        ([] : List Char) 0
      = (1, Except.error (errPre ++ noneIterMsg)) :=
  ⟨rfl, (execute_sql_nonquery_error_state _ ([] : List Char) 0).1 1 [] rfl⟩

/-- Claim C8: when the remote generation call errors, `question_to_sql`
propagates that distinct failure to its caller unchanged (the source has no
handler around it) and in particular never returns empty query text. -/
theorem question_to_sql_propagates_failure {ε : Type}
    (gen : List Char → Except ε (List Char)) (q : List Char) (e : ε)
    (h : gen (full_prompt q) = Except.error e) :
    question_to_sql gen q = Except.error e ∧
      ∀ s, question_to_sql gen q ≠ Except.ok s := by
  constructor
  · simp [question_to_sql, h]
  · intro s hs
    simp [question_to_sql, h] at hs

theorem question_to_sql_propagates_failure_witness :
    (fun (_ : List Char) =>
        (Except.error (("boom").toList) : Except (List Char) (List Char)))
      (full_prompt (("q").toList)) = Except.error (("boom").toList)
    ∧ (question_to_sql
        (fun _ => (Except.error (("boom").toList) : Except (List Char) (List Char)))
        (("q").toList) = Except.error (("boom").toList)
    ∧ ∀ s, question_to_sql
        (fun _ => (Except.error (("boom").toList) : Except (List Char) (List Char)))
        (("q").toList) ≠ Except.ok s) :=
  ⟨rfl, question_to_sql_propagates_failure _ _ _ rfl⟩

/-- Claim C7: the presentation operations are pure with respect to the result
set: each call leaves the result set unchanged, and repeating a call on the
result set left by the first yields an equal artifact. -/
theorem presenter_pure (rs : ResultSet) :
    (toDisplayTextCall rs).2 = rs ∧ (toRecordsCall rs).2 = rs ∧ (plotCall rs).2 = rs
    ∧ (toDisplayTextCall ((toDisplayTextCall rs).2)).1 = (toDisplayTextCall rs).1
    ∧ (toRecordsCall ((toRecordsCall rs).2)).1 = (toRecordsCall rs).1
    ∧ (plotCall ((plotCall rs).2)).1 = (plotCall rs).1 :=
  ⟨rfl, rfl, rfl, rfl, rfl, rfl⟩

/-- Claim C2 counterexample: a Result Set with one numeric column is a shape
other than two-columns-with-numeric-second, yet `plot_if_possible` produces a
chart (the single-point chart), so "for every Result Set of any other shape,
plot produces no chart" is false as stated. -/
theorem plot_one_numeric_column_makes_chart :
    plot_if_possible (ResultSet.mk [("n").toList] [[Value.int 5]]) ≠ none
    ∧ plot_if_possible (ResultSet.mk [("n").toList] [[Value.int 5]])
        = some (Chart.point (("n").toList) (("n").toList) (Value.int 5)) :=
  ⟨by decide, by decide⟩

/-- Claim C2 (amended): with exactly two columns and a numeric second column,
`plot_if_possible` produces the line chart titled `"<col2> by <col1>"`, with
the first column cast to text as the x-sequence in row order and the second
column as y-values; a two-column result with non-numeric second column
produces no chart; and every shape that is neither two columns nor a single
numeric column produces no chart. -/
theorem plot_shape_policy (rs : ResultSet) :
    (∀ c1 c2, rs.columns = [c1, c2] → numericDtype (colVals rs 1) = true →
      plot_if_possible rs = some (Chart.line (c2 ++ (" by ").toList ++ c1) c1 c2
        ((colVals rs 0).map valStr) (colVals rs 1)))
    ∧ (rs.columns.length = 2 → numericDtype (colVals rs 1) = false →
        plot_if_possible rs = none)
    ∧ (rs.columns.length ≠ 2 →
        ¬(rs.columns.length = 1 ∧ numericDtype (colVals rs 0) = true) →
        plot_if_possible rs = none) := by
  refine ⟨?_, ?_, ?_⟩
  · intro c1 c2 hc hn
    exact plot_of_two_numeric hc hn
  · intro hl hn
    exact plot_of_two_nonnumeric hl hn
  · intro hl h1
    exact plot_of_other_shape (fun h => hl h.1) h1

theorem plot_shape_policy_witness :
    (ResultSet.mk [("d").toList, ("s").toList]
        [[Value.text (("x").toList), Value.int 3],
         [Value.text (("y").toList), Value.int 4]]).columns
      = [("d").toList, ("s").toList]
    ∧ numericDtype (colVals (ResultSet.mk [("d").toList, ("s").toList]
        [[Value.text (("x").toList), Value.int 3],
         [Value.text (("y").toList), Value.int 4]]) 1) = true
    ∧ plot_if_possible (ResultSet.mk [("d").toList, ("s").toList]
        [[Value.text (("x").toList), Value.int 3],
         [Value.text (("y").toList), Value.int 4]])
      = some (Chart.line (("s").toList ++ (" by ").toList ++ ("d").toList)
          (("d").toList) (("s").toList)
          [("x").toList, ("y").toList] [Value.int 3, Value.int 4]) := by
  refine ⟨rfl, by decide, ?_⟩
  exact (plot_shape_policy (ResultSet.mk [("d").toList, ("s").toList]
      [[Value.text (("x").toList), Value.int 3],
       [Value.text (("y").toList), Value.int 4]])).1
    (("d").toList) (("s").toList) rfl (by decide)

/-- Claim C5: an empty Result Set yields no chart; a Result Set with exactly
one numeric column yields the single-point chart of the first row's value,
labeled and titled with the column name; any shape matching neither the
two-column-numeric rule nor the one-column-numeric rule silently yields no
chart (and `plot_if_possible` is a total function, so it never raises). -/
theorem plot_empty_single_policy (rs : ResultSet) :
    (rs.rows = [] → plot_if_possible rs = none)
    ∧ (∀ c, rs.columns = [c] → numericDtype (colVals rs 0) = true →
        plot_if_possible rs
          = some (Chart.point c c ((rs.rows.headD []).headD Value.null)))
    ∧ (¬(rs.columns.length = 2 ∧ numericDtype (colVals rs 1) = true) →
        ¬(rs.columns.length = 1 ∧ numericDtype (colVals rs 0) = true) →
        plot_if_possible rs = none) :=
  ⟨plot_of_empty_rows, fun _ hc hn => plot_of_one_numeric hc hn, plot_of_other_shape⟩

theorem plot_empty_single_policy_witness :
    (ResultSet.mk [("n").toList] ([] : List (List Value))).rows = []
    ∧ plot_if_possible (ResultSet.mk [("n").toList] ([] : List (List Value))) = none
    ∧ numericDtype (colVals (ResultSet.mk [("total").toList] [[Value.int 42]]) 0) = true
    ∧ plot_if_possible (ResultSet.mk [("total").toList] [[Value.int 42]])
        = some (Chart.point (("total").toList) (("total").toList) (Value.int 42)) := by
  refine ⟨rfl, (plot_empty_single_policy _).1 rfl, by decide, ?_⟩
  exact (plot_empty_single_policy (ResultSet.mk [("total").toList] [[Value.int 42]])).2.1
    (("total").toList) rfl (by decide)

lemma question_to_sql_post_stripped (s : List Char) :
    pyStrip (question_to_sql_post s) = question_to_sql_post s := by
  unfold question_to_sql_post
  by_cases h : leadsWith fence (pyStrip s) <;> simp [h, pyStrip_idem]

lemma question_to_sql_post_unwrapped {s : List Char}
    (h : leadsWith fence (pyStrip s) = false) :
    question_to_sql_post s = pyStrip s := by
  unfold question_to_sql_post
  simp [h, pyStrip_idem]

lemma question_to_sql_post_no_marker_lines {s : List Char}
    (h : leadsWith fence (pyStrip s) = true) :
    ∀ l ∈ splitCh '\n' (question_to_sql_post s),
      leadsWith fence (pyStripLeft l) = false := by
  have hpost : question_to_sql_post s = pyStrip (joinCh '\n'
      ((splitCh '\n' (pyStrip s)).filter (fun l => !(leadsWith fence (pyStrip l))))) := by
    unfold question_to_sql_post
    simp [h]
  rw [hpost]
  refine noFenceLine_pyStrip ?_
  intro y hy
  have hyk : y ∈ (splitCh '\n' (pyStrip s)).filter
      (fun l => !(leadsWith fence (pyStrip l))) := by
    refine mem_splitCh_joinCh ?_ y hy
    intro a ha
    exact not_mem_of_mem_splitCh (List.mem_filter.mp ha).1
  have h1 : leadsWith fence (pyStrip y) = false := by
    simpa using (List.mem_filter.mp hyk).2
  rw [← leadsWith_fence_pyStrip]
  exact h1

/-- Claim C3 counterexample: the response `"```\n```SELECT 1\n```"` is wrapped
in fence markers and its middle line carries content right after a marker; the
claim says such marker-adjacent content is left intact, but the source removes
the whole line: the synthesized query text is empty and the content
`"SELECT 1"` does not occur in it. -/
theorem question_to_sql_drops_marker_adjacent_content :
    question_to_sql
        (fun _ => (Except.ok (("```\n```SELECT 1\n```").toList) : Except Unit (List Char)))
        (("q").toList) = Except.ok []
    ∧ occursIn (("SELECT 1").toList)
        ((question_to_sql
            (fun _ => (Except.ok (("```\n```SELECT 1\n```").toList) : Except Unit (List Char)))
            (("q").toList)).toOption.getD []) = false :=
  ⟨rfl, by decide⟩

/-- Claim C3 (amended): the synthesized text is trimmed of leading and
trailing whitespace; if the trimmed response is wrapped in fence markers, every
line whose stripped form starts with a fence marker is removed — including a
line where content follows the marker — and the rest is re-trimmed, leaving no
residual marker lines; in particular the response `"```\nSELECT 1\n```"`
yields exactly `"SELECT 1"`. -/
theorem question_to_sql_postprocess_amended (s : List Char) :
    pyStrip (question_to_sql_post s) = question_to_sql_post s
    ∧ (leadsWith fence (pyStrip s) = true →
        ∀ l ∈ splitCh '\n' (question_to_sql_post s),
          leadsWith fence (pyStripLeft l) = false)
    ∧ question_to_sql_post (("```\nSELECT 1\n```").toList) = ("SELECT 1").toList
    ∧ question_to_sql_post (("```\n``` X\nSELECT 2\n```").toList) = ("SELECT 2").toList :=
  ⟨question_to_sql_post_stripped s,
    fun h => question_to_sql_post_no_marker_lines h, by decide, by decide⟩

theorem question_to_sql_postprocess_amended_witness :
    leadsWith fence (pyStrip (("```\nabc\n```").toList)) = true
    ∧ ∀ l ∈ splitCh '\n' (question_to_sql_post (("```\nabc\n```").toList)),
        leadsWith fence (pyStripLeft l) = false :=
  ⟨by decide,
    (question_to_sql_postprocess_amended (("```\nabc\n```").toList)).2.1 (by decide)⟩

/-- Claim C10: fence-marker stripping is applied only when the trimmed
response begins with a fence marker; in that case every line whose
leading-whitespace-stripped form starts with a marker is removed (even when
content follows the marker on the same line) and no marker-leading line
remains; when the trimmed response does not begin with a marker, the response
is returned as-is after trimming, fence markers elsewhere included. -/
theorem question_to_sql_post_fence_condition (s : List Char) :
    (leadsWith fence (pyStrip s) = false → question_to_sql_post s = pyStrip s)
    ∧ (leadsWith fence (pyStrip s) = true →
        ∀ l ∈ splitCh '\n' (question_to_sql_post s),
          leadsWith fence (pyStripLeft l) = false)
    ∧ question_to_sql_post (("```\n```DROP TABLE t\nSELECT 3\n```").toList)
        = ("SELECT 3").toList
    ∧ question_to_sql_post (("  SELECT 4 ``` ").toList) = ("SELECT 4 ```").toList :=
  ⟨fun h => question_to_sql_post_unwrapped h,
    fun h => question_to_sql_post_no_marker_lines h, by decide, by decide⟩

theorem question_to_sql_post_fence_condition_witness :
    leadsWith fence (pyStrip (("hello\n```").toList)) = false
    ∧ question_to_sql_post (("hello\n```").toList) = pyStrip (("hello\n```").toList)
    ∧ leadsWith fence (pyStrip (("```\nzz\n```").toList)) = true
    ∧ ∀ l ∈ splitCh '\n' (question_to_sql_post (("```\nzz\n```").toList)),
        leadsWith fence (pyStripLeft l) = false :=
  ⟨by decide, (question_to_sql_post_fence_condition (("hello\n```").toList)).1 (by decide),
    by decide,
    (question_to_sql_post_fence_condition (("```\nzz\n```").toList)).2.1 (by decide)⟩

/-- Claim C4: once a query has been synthesized, `api_ask` returns, when
execution succeeds, a response with exactly the keys `question`, `sql`,
`result` where `result` holds one column-to-value mapping per row; and when
execution fails, a response with exactly the keys `question`, `sql`, `error`
where `error` is a string — both served with the same success status code
200, never a distinct error status. -/
theorem api_ask_shape {ε σ : Type} (gen : List Char → Except ε (List Char))
    (engine : List Char → σ → σ × EngineReply) (q : List Char) (st : σ)
    (sqlq : List Char) (hsql : question_to_sql gen q = Except.ok sqlq) :
    (∀ st' rs, execute_sql engine sqlq st = (st', Except.ok rs) →
        api_ask gen engine q st = (st', Except.ok (ApiResponse.mk 200 q sqlq
          (ApiBody.result (to_dict_records rs))))
        ∧ (to_dict_records rs).length = rs.rows.length)
    ∧ (∀ st' m, execute_sql engine sqlq st = (st', Except.error m) →
        api_ask gen engine q st = (st', Except.ok (ApiResponse.mk 200 q sqlq
          (ApiBody.error m)))) := by
  constructor
  · intro st' rs h
    constructor
    · simp [api_ask, hsql, h]
    · simp [to_dict_records]
  · intro st' m h
    simp [api_ask, hsql, h]

theorem api_ask_shape_witness :
    question_to_sql
        (fun _ => (Except.ok (("SELECT 1").toList) : Except Unit (List Char)))
        (("q").toList)
      = Except.ok (("SELECT 1").toList)
    ∧ execute_sql
        (fun (_ : List Char) (st : Nat) =>
          (st, EngineReply.rows (some [("one").toList]) [[Value.int 1]]))
        (("SELECT 1").toList) 0
      = (0, Except.ok (ResultSet.mk [("one").toList] [[Value.int 1]]))
    ∧ api_ask
        (fun _ => (Except.ok (("SELECT 1").toList) : Except Unit (List Char)))
        (fun (_ : List Char) (st : Nat) =>
          (st, EngineReply.rows (some [("one").toList]) [[Value.int 1]]))
        (("q").toList) 0
      = (0, Except.ok (ApiResponse.mk 200 (("q").toList) (("SELECT 1").toList)
          (ApiBody.result [[((("one").toList), Value.int 1)]]))) := by
  refine ⟨rfl, rfl, ?_⟩
  exact ((api_ask_shape
      (fun _ => (Except.ok (("SELECT 1").toList) : Except Unit (List Char)))
      (fun (_ : List Char) (st : Nat) =>
        (st, EngineReply.rows (some [("one").toList]) [[Value.int 1]]))
      (("q").toList) 0 (("SELECT 1").toList) rfl).1 0
      (ResultSet.mk [("one").toList] [[Value.int 1]]) rfl).1

/-- Claim C6: `to_dict_records` produces exactly one column-to-value mapping
per row, preserving row order and mapping the column names to that row's
values; and the text rendering `to_string` consists of a header line whose
whitespace-separated fields are exactly the column headers (each exactly once,
no index column) followed by one line per row whose fields are exactly that
row's rendered cell values (each cell's string form present). -/
theorem presenter_records_display (rs : ResultSet)
    (hwf : ∀ r ∈ rs.rows, r.length = rs.columns.length)
    (hcols : rs.columns ≠ [])
    (hname : ∀ nm ∈ rs.columns, nm ≠ [] ∧ ' ' ∉ nm ∧ '\n' ∉ nm)
    (hcell : ∀ r ∈ rs.rows, ∀ v ∈ r, valStr v ≠ [] ∧ ' ' ∉ valStr v ∧ '\n' ∉ valStr v) :
    (to_dict_records rs).length = rs.rows.length
    ∧ List.Forall₂ (fun m row => List.map Prod.fst m = rs.columns ∧
        List.map Prod.snd m = row) (to_dict_records rs) rs.rows
    ∧ (splitCh '\n' (to_string rs)).map wsTokens
        = rs.columns :: rs.rows.map (fun r => r.map valStr) := by
  refine ⟨by simp [to_dict_records], to_dict_records_forall₂ rs hwf, ?_⟩
  rw [splitCh_to_string hwf hcols hname hcell, List.map_cons]
  congr 1
  · exact wsTokens_renderRow _ _ (widths_length rs).symm
      (fun nm hnm => ⟨(hname nm hnm).1, (hname nm hnm).2.1⟩)
  · rw [List.map_map]
    apply List.map_congr_left
    intro r hr
    have hlen : (r.map valStr).length = (widths rs).length := by
      rw [List.length_map, widths_length, hwf r hr]
    refine wsTokens_renderRow _ _ hlen ?_
    intro f hf
    obtain ⟨v, hv, rfl⟩ := List.mem_map.mp hf
    exact ⟨(hcell r hr v hv).1, (hcell r hr v hv).2.1⟩

theorem presenter_records_display_witness :
    (∀ r ∈ (ResultSet.mk [("date").toList, ("ad_sales").toList]
        [[Value.text (("d1").toList), Value.int 5],
         [Value.text (("d2000").toList), Value.int 700]]).rows,
      r.length = (ResultSet.mk [("date").toList, ("ad_sales").toList]
        [[Value.text (("d1").toList), Value.int 5],
         [Value.text (("d2000").toList), Value.int 700]]).columns.length)
    ∧ (splitCh '\n' (to_string (ResultSet.mk [("date").toList, ("ad_sales").toList]
        [[Value.text (("d1").toList), Value.int 5],
         [Value.text (("d2000").toList), Value.int 700]]))).map wsTokens
      = (ResultSet.mk [("date").toList, ("ad_sales").toList]
          [[Value.text (("d1").toList), Value.int 5],
           [Value.text (("d2000").toList), Value.int 700]]).columns
        :: (ResultSet.mk [("date").toList, ("ad_sales").toList]
            [[Value.text (("d1").toList), Value.int 5],
             [Value.text (("d2000").toList), Value.int 700]]).rows.map
              (fun r => r.map valStr) := by
  refine ⟨by decide, ?_⟩
  exact (presenter_records_display
      (ResultSet.mk [("date").toList, ("ad_sales").toList]
        [[Value.text (("d1").toList), Value.int 5],
         [Value.text (("d2000").toList), Value.int 700]])
      (by decide) (by decide) (by decide) (by decide)).2.2
